import Mathlib

/-!
Verification development for the Pulguitas order-extraction pipeline
(`main.py`): product resolver, order segmenter, per-order aggregator,
label anchor locator and label text formatter, shallowly embedded in Lean.
-/

/-- Python `str.lower()` restricted to ASCII, on the character list of a string. -/
def lowerChars (cs : List Char) : List Char := cs.map Char.toLower

/-- Python `str.strip()`: drop leading and trailing whitespace characters. -/
def stripChars (cs : List Char) : List Char :=
  ((cs.dropWhile Char.isWhitespace).reverse.dropWhile Char.isWhitespace).reverse

/-- Python `str.isdigit()` (ASCII digits): nonempty and all characters are digits. -/
def esDigitos (cs : List Char) : Bool := !cs.isEmpty && cs.all Char.isDigit

/-- Python `int(...)` on a digit string. -/
def digitsToNat (cs : List Char) : Nat :=
  cs.foldl (fun n c => 10 * n + (c.toNat - 48)) 0

/-- Python `sub in s`: `sub` occurs as a contiguous run inside `cs`. -/
def contieneSub (sub : List Char) : List Char → Bool
  | [] => sub.isEmpty
  | c :: cs => sub.isPrefixOf (c :: cs) || contieneSub sub cs

/-- Canonical catalog descriptor `(cat, modelo, color, talle)` from `MAPA_PRODUCTOS`. -/
structure Info where
  cat : String
  modelo : String
  color : String
  talle : String
deriving DecidableEq

/-- The in-memory catalog mapping of `main.py` (`MAPA_PRODUCTOS`, lines 86-151),
in source (insertion) order. -/
def MAPA_PRODUCTOS : List (String × Info) := [
  ("gatito verano (talla s", ⟨"VERANO", "Gatito", "Beige", "S"⟩),
  ("gatito verano (talla m", ⟨"VERANO", "Gatito", "Beige", "M"⟩),
  ("gatito verano (talla l", ⟨"VERANO", "Gatito", "Beige", "L"⟩),
  ("gatito verano", ⟨"VERANO", "Gatito", "Beige", "S"⟩),
  ("cama pancho antiestrés - ergonomica (talla m", ⟨"ANTIESTRES", "Pancho", "", "M"⟩),
  ("cama pancho antiestrés - ergonomica (talla l", ⟨"ANTIESTRES", "Pancho", "", "L"⟩),
  ("cama pancho antiestres - ergonomica (talla m", ⟨"ANTIESTRES", "Pancho", "", "M"⟩),
  ("cama pancho antiestres - ergonomica (talla l", ⟨"ANTIESTRES", "Pancho", "", "L"⟩),
  ("cama pancho antiestrés - ergonomica", ⟨"ANTIESTRES", "Pancho", "", "M"⟩),
  ("cama pancho antiestres - ergonomica", ⟨"ANTIESTRES", "Pancho", "", "M"⟩),
  ("cama garra - antiestres, ergonomica (talla m", ⟨"ANTIESTRES", "Garra", "Gris", "M"⟩),
  ("cama garra - antiestres, ergonomica (talla l", ⟨"ANTIESTRES", "Garra", "Gris", "L"⟩),
  ("cama garra - antiestres", ⟨"ANTIESTRES", "Garra", "Gris", "M"⟩),
  ("cama nordica lavable (talla m", ⟨"NORDICA", "Nórdica", "Gris", "M"⟩),
  ("cama nordica lavable (talla l", ⟨"NORDICA", "Nórdica", "Gris", "L"⟩),
  ("cama nordica lavable (talla xl", ⟨"NORDICA", "Nórdica", "Gris", "XL"⟩),
  ("cama nordica lavable", ⟨"NORDICA", "Nórdica", "Gris", "M"⟩),
  ("cama bahia - ortopedico (talla l 70x95 cm hasta 50 kilos, gris", ⟨"DECO", "Bahía", "Gris", "L"⟩),
  ("cama bahia - ortopedico (talla l 70x95 cm hasta 50 kilos, rosa", ⟨"DECO", "Bahía", "Rosa", "L"⟩),
  ("cama bahia - ortopedico (talla l 70x95 cm hasta 50 kilos, salmon", ⟨"DECO", "Bahía", "Salmón", "L"⟩),
  ("cama bahia - ortopedico (talla l 70x95 cm hasta 50 kilos, mostaza", ⟨"DECO", "Bahía", "Mostaza", "L"⟩),
  ("cama bahia - ortopedico (talla m 45x60 cm hasta 20 kilos, gris", ⟨"DECO", "Bahía", "Gris", "M"⟩),
  ("cama bahia - ortopedico (talla m 45x60 cm hasta 20 kilos, mostaza", ⟨"DECO", "Bahía", "Mostaza", "M"⟩),
  ("cama bahia - ortopedico (talla l 70x95 cm hasta 50", ⟨"DECO", "Bahía", "Gris", "L"⟩),
  ("cama bahia - ortopedico (talla m 45x60 cm hasta 20", ⟨"DECO", "Bahía", "Mostaza", "M"⟩),
  ("mini sofa - ortopedico (gris/oscuro, talla l", ⟨"DECO", "Mini Sofá", "Gris Oscuro", "L"⟩),
  ("mini sofa - ortopedico (gris/oscuro, talla m", ⟨"DECO", "Mini Sofá", "Gris Oscuro", "M"⟩),
  ("mini sofa - ortopedico (gris/claro, talla m", ⟨"DECO", "Mini Sofá", "Gris Claro", "M"⟩),
  ("mini sofa - ortopedico (gris/claro, talla l", ⟨"DECO", "Mini Sofá", "Gris Claro", "L"⟩),
  ("mini sofa - ortopedico (mostaza, talla m", ⟨"DECO", "Mini Sofá", "Mostaza", "M"⟩),
  ("mini sofa - ortopedico (mostaza, talla l", ⟨"DECO", "Mini Sofá", "Mostaza", "L"⟩),
  ("mini sofa - ortopedico (rosa, talla m", ⟨"DECO", "Mini Sofá", "Rosa", "M"⟩),
  ("mini sofa - ortopedico (rosa, talla l", ⟨"DECO", "Mini Sofá", "Rosa", "L"⟩),
  ("mini sofa - ortopedico (gris/oscuro", ⟨"DECO", "Mini Sofá", "Gris Oscuro", "M"⟩),
  ("mini sofa - ortopedico (gris/claro", ⟨"DECO", "Mini Sofá", "Gris Claro", "M"⟩),
  ("mini sofa - ortopedico (mostaza", ⟨"DECO", "Mini Sofá", "Mostaza", "M"⟩),
  ("mini sofa - ortopedico (rosa", ⟨"DECO", "Mini Sofá", "Rosa", "M"⟩),
  ("sofa cama - ortopedico (gris/oscuro, talla l", ⟨"DECO", "Sofá Cama", "Gris", "L"⟩),
  ("sofa cama - ortopedico (gris/oscuro, talla m", ⟨"DECO", "Sofá Cama", "Gris", "M"⟩),
  ("sofa cama - ortopedico (salmon, talla l", ⟨"DECO", "Sofá Cama", "Salmón", "L"⟩),
  ("sofa cama - ortopedico (salmon, talla m", ⟨"DECO", "Sofá Cama", "Salmón", "M"⟩),
  ("sofa cama - ortopedico (mostaza, talla l", ⟨"DECO", "Sofá Cama", "Mostaza", "L"⟩),
  ("sofa cama - ortopedico (mostaza, talla m", ⟨"DECO", "Sofá Cama", "Mostaza", "M"⟩),
  ("timoteo (talla s 40x60 cm hasta 6 kilos, mostaza", ⟨"DECO", "Timoteo", "Mostaza", "S"⟩),
  ("timoteo (talla s 40x60 cm hasta 6 kilos, gris", ⟨"DECO", "Timoteo", "Gris", "S"⟩),
  ("timoteo (talla s 40x60 cm hasta 6 kilos, rosa", ⟨"DECO", "Timoteo", "Rosa", "S"⟩),
  ("timoteo (talla m 60x80 cm hasta 15 kilos, mostaza", ⟨"DECO", "Timoteo", "Mostaza", "M"⟩),
  ("timoteo (talla m 60x80 cm hasta 15 kilos, gris", ⟨"DECO", "Timoteo", "Gris", "M"⟩),
  ("timoteo (talla m 60x80 cm hasta 15 kilos, rosa", ⟨"DECO", "Timoteo", "Rosa", "M"⟩),
  ("escaleras ortopedica (talla l", ⟨"ESCALERA", "Escalera", "Gris", "L"⟩),
  ("escaleras ortopedica (talla m", ⟨"ESCALERA", "Escalera", "Gris", "M"⟩),
  ("gatito invierno (talla s", ⟨"INVIERNO", "Gatito", "Beige/Marrón", "S"⟩),
  ("gatito invierno (talla m", ⟨"INVIERNO", "Gatito", "Beige/Marrón", "M"⟩),
  ("gatito invierno (talla l", ⟨"INVIERNO", "Gatito", "Beige/Marrón", "L"⟩),
  ("mantitas doble faz (gris/blanco", ⟨"MANTA", "Manta Doble Faz", "Gris/Blanco", "U"⟩),
  ("mantitas doble faz (beige/blanco", ⟨"MANTA", "Manta Doble Faz", "Beige/Blanco", "U"⟩),
  ("mantitas doble faz (gris", ⟨"MANTA", "Manta Doble Faz", "Gris/Blanco", "U"⟩),
  ("mantitas doble faz (beige", ⟨"MANTA", "Manta Doble Faz", "Beige/Blanco", "U"⟩),
  ("remeras deportivas (argentina", ⟨"ROPITA", "Ropita", "Argentina", "U"⟩),
  ("buzo panda", ⟨"ROPITA", "Ropita", "Panda", "U"⟩)]

/-- The normalization `key = nombre.lower().strip()` of `resolver` (line 158). -/
def normKey (nombre : String) : List Char := stripChars (lowerChars nombre.data)

/-- Truthiness test `info[2] and info[2].strip()` of `resolver` (line 166):
the entry carries a specific, non-blank color. -/
def hasColor (i : Info) : Bool := !(i.color == ("")) && !(stripChars i.color.data == [])

/-- One iteration of either search loop of `resolver` (lines 164-169 and 176-179):
keep the longest matching entry seen so far that satisfies `cond`.
The accumulator is `(best descriptor so far, its key length)`, starting at `(none, 0)`. -/
def paso (cond : String × Info → Bool) (key : List Char)
    (best : Option Info × Nat) (e : String × Info) : Option Info × Nat :=
  if cond e && e.1.data.isPrefixOf key && decide (best.2 < e.1.length)
  then (some e.2, e.1.length) else best

/-- `resolver` (lines 153-181): two-phase longest-matching-key search over a mapping,
first restricted to entries with a specific color, then over all entries. -/
def resolver (mapa : List (String × Info)) (nombre : String) : Option Info :=
  let key := normKey nombre
  match (mapa.foldl (paso (fun e => hasColor e.2) key) (none, 0)).1 with
  | some info => some info
  | none => (mapa.foldl (paso (fun _ => true) key) (none, 0)).1

/-- The fixed product-start keyword list of `extraer_ordenes_con_fitz` (lines 234-238). -/
def palabras_clave : List String :=
  ["cama", "sofa", "mini", "escalera", "manta", "gatito",
   "nordica", "pancho", "garra", "timoteo", "mantitas",
   "remeras", "buzo", "mantita", "huella", "corona",
   "hamburguesa", "ballena", "cactus", "panda", "palta",
   "argentina", "boca", "river", "inter", "mami"]

/-- Test `any(linea.lower().startswith(p) for p in palabras_clave)` (lines 240, 269). -/
def isKeywordLine (cs : List Char) : Bool :=
  palabras_clave.any fun p => p.data.isPrefixOf (lowerChars cs)

/-- State threaded through one call of `extraer_ordenes_con_fitz`.
`lastC` models the function-scoped Python variable `cantidad`: the guard
`'cantidad' not in locals()` (line 281) is true only before the first
assignment to `cantidad` anywhere in the call, so once any product span has
set a quantity, that value persists into later spans that end the block
without setting one.  `ordenes` models `ordenes = defaultdict(list)`
(line 200) as an insertion-ordered association list. -/
structure SegState where
  lastC : Option Nat
  ordenes : List (String × List (Info × Nat))

/-- Inner capture loop of a product span (lines 252-278): starting from the
accumulated name `nombre`, consume following lines until a pure-digit line
(quantity, consumed), a line containing "Subtotal" (not consumed), a new
keyword line (not consumed), or the end of the block.  Returns the final
name, the quantity assigned inside the loop (if any), and the unconsumed rest. -/
def capturarSpan (nombre : List Char) : List String → List Char × Option Nat × List String
  | [] => (nombre, none, [])
  | l :: ls =>
    let lm := stripChars l.data
    if esDigitos lm then (nombre, some (digitsToNat lm), ls)
    else if contieneSub ("Subtotal").data lm then (nombre, some 1, l :: ls)
    else if isKeywordLine lm then (nombre, some 1, l :: ls)
    else capturarSpan (nombre ++ (' ' :: lm)) ls

/-- Block collection loop (lines 217-224): the lines strictly after an
`Orden #` header up to (excluding) the next header, plus the remaining lines
starting at that next header. -/
def collectBlock : List String → List String × List String
  | [] => ([], [])
  | l :: ls =>
    if ("Orden #").data.isPrefixOf (stripChars l.data) then ([], l :: ls)
    else
      let r := collectBlock ls
      (l :: r.1, r.2)

/-- The regex search `re.search(r'Orden #(\d+)', linea)` (line 210): digits of
the first occurrence of `Orden #` followed by at least one digit. -/
def searchOrden : List Char → Option String
  | [] => none
  | c :: cs =>
    if ("Orden #").data.isPrefixOf (c :: cs) then
      let ds := ((c :: cs).drop 7).takeWhile Char.isDigit
      if ds.isEmpty then searchOrden cs else some (String.mk ds)
    else searchOrden cs

/-- Append one item under an order id, as `ordenes[num_orden].append(...)`
does on a `defaultdict(list)` (line 290): extend the first list stored under
the key, or add the key at the end. -/
def ddAppend (m : List (String × List (Info × Nat))) (k : String) (v : Info × Nat) :
    List (String × List (Info × Nat)) :=
  match m with
  | [] => [(k, [v])]
  | p :: rest => if p.1 = k then (p.1, p.2 ++ [v]) :: rest else p :: ddAppend rest k v

/-- Per-block scanning loop (lines 230-296), with an explicit structural fuel:
find a keyword line, capture its span, resolve the quantity (with the
`locals()` fallthrough), resolve the product name, and append the item when
the name resolves.  Every step consumes at least one line, so fuel equal to
the number of lines (as passed by `procesarLineas`) never runs out. -/
def procesarGo (num : String) : Nat → List String → SegState → SegState
  | _, [], st => st
  | 0, _ :: _, st => st
  | n + 1, l :: ls, st =>
    let la := stripChars l.data
    if isKeywordLine la then
      let r := capturarSpan la ls
      let cl : Nat × Option Nat :=
        match r.2.1 with
        | some c => (c, some c)
        | none =>
          match st.lastC with
          | some c => (c, some c)
          | none => (1, some 1)
      let ord' :=
        match resolver MAPA_PRODUCTOS (String.mk r.1) with
        | some info => ddAppend st.ordenes num (info, cl.1)
        | none => st.ordenes
      procesarGo num n r.2.2 ⟨cl.2, ord'⟩
    else procesarGo num n ls st

/-- The per-block scanning loop applied to a whole block (lines 230-296). -/
def procesarLineas (num : String) (lineas : List String) (st : SegState) : SegState :=
  procesarGo num lineas.length lineas st

/-- Outer document loop (lines 205-303), with an explicit structural fuel:
find each `Orden #` header, collect its block, process the block, and
continue at the next header.  Every step consumes at least one line, so fuel
equal to the number of lines (as passed by `extraerLoop`) never runs out. -/
def extraerGo : Nat → List String → SegState → SegState
  | _, [], st => st
  | 0, _ :: _, st => st
  | n + 1, l :: ls, st =>
    let la := stripChars l.data
    if ("Orden #").data.isPrefixOf la then
      match searchOrden la with
      | some num => extraerGo n (collectBlock ls).2 (procesarLineas num (collectBlock ls).1 st)
      | none => extraerGo n ls st
    else extraerGo n ls st

/-- The outer document loop applied to the whole line sequence (lines 205-303). -/
def extraerLoop (lineas : List String) (st : SegState) : SegState :=
  extraerGo lineas.length lineas st

/-- One update of a `defaultdict(int)` keyed association list:
`grupos[k] += v` (lines 309-311 and 615-619). -/
def ddAdd {κ : Type} [DecidableEq κ] (m : List (κ × Nat)) (k : κ) (v : Nat) :
    List (κ × Nat) :=
  match m with
  | [] => [(k, v)]
  | p :: rest => if p.1 = k then (p.1, p.2 + v) :: rest else p :: ddAdd rest k v

/-- Per-order aggregation (lines 309-312): sum quantities of equal descriptors,
keeping first-seen order. -/
def agrupar (productos : List (Info × Nat)) : List (Info × Nat) :=
  productos.foldl (fun m p => ddAdd m p.1 p.2) []

/-- The segmentation and aggregation pipeline of `extraer_ordenes_con_fitz`
(lines 186-317) applied to the extracted line sequence of the document. -/
def extraer_ordenes (lineas : List String) : List (String × List (Info × Nat)) :=
  ((extraerLoop lineas ⟨none, []⟩).ordenes).map fun par => (par.1, agrupar par.2)

/-- The block decomposition computed by the outer loop (lines 205-224), as data:
each `Orden #` header's extracted id together with its block lines.  Follows
exactly the scrutinees and conditions of `extraerGo`. -/
def partirGo : Nat → List String → List (String × List String)
  | _, [] => []
  | 0, _ :: _ => []
  | n + 1, l :: ls =>
    let la := stripChars l.data
    if ("Orden #").data.isPrefixOf la then
      match searchOrden la with
      | some num => (num, (collectBlock ls).1) :: partirGo n (collectBlock ls).2
      | none => partirGo n ls
    else partirGo n ls

/-- Blocks of a document: order id and block lines per `Orden #` header. -/
def partirBloques (lineas : List String) : List (String × List String) :=
  partirGo lineas.length lineas

/-- The captured product names (raw spans) of one block, as data: follows
exactly the scrutinees and conditions of `procesarGo`. -/
def spansGo : Nat → List String → List (List Char)
  | _, [] => []
  | 0, _ :: _ => []
  | n + 1, l :: ls =>
    let la := stripChars l.data
    if isKeywordLine la then
      let r := capturarSpan la ls
      r.1 :: spansGo n r.2.2
    else spansGo n ls

/-- Captured product names of one block. -/
def spansBloque (lineas : List String) : List (List Char) :=
  spansGo lineas.length lineas

/-- Reading the item list stored under an order id (empty when absent). -/
def lookupOrden (m : List (String × List (Info × Nat))) (o : String) : List (Info × Nat) :=
  match m with
  | [] => []
  | p :: rest => if p.1 = o then p.2 else lookupOrden rest o

/-- The keys of the extracted order map. -/
def claves (m : List (String × List (Info × Nat))) : List String := m.map fun p => p.1

/-- The quantity an aggregated association list assigns to a descriptor
(0 when absent): the mapping view of the `defaultdict(int)` result. -/
def cantidadDe (m : List (Info × Nat)) (i : Info) : Nat :=
  match m with
  | [] => 0
  | p :: rest => if p.1 = i then p.2 else cantidadDe rest i

/-- Every item of every extracted order has quantity at least 1. -/
def todasPositivas (m : List (String × List (Info × Nat))) : Prop :=
  ∀ par ∈ m, ∀ it ∈ par.2, 1 ≤ it.2

instance (m : List (String × List (Info × Nat))) : Decidable (todasPositivas m) := by
  unfold todasPositivas; infer_instance

/-- Rendering of one grouped item in `formatear_productos_orden` (lines 622-639):
`MANTA` and `INVIERNO`-Gatito specials, then the default format with the color
included only when non-blank.  The group key order is `(cat, modelo, talle, color)`
as built on line 618. -/
def renderGrupo : (String × String × String × String) × Nat → String
  | ((cat, modelo, talle, color), cant) =>
    if cat = "MANTA" then
      ("Manta ") ++ String.mk (lowerChars (color.data.takeWhile fun c => c ≠ '/')) ++
        (" x") ++ toString cant
    else if cat = "INVIERNO" ∧ modelo = "Gatito" then
      ("Gatito invierno ") ++ talle ++ (" x") ++ toString cant
    else if color ≠ "" ∧ stripChars color.data ≠ [] then
      modelo ++ (" ") ++ talle ++ (" ") ++ color ++ (" x") ++ toString cant
    else
      modelo ++ (" ") ++ talle ++ (" x") ++ toString cant

/-- `formatear_productos_orden` (lines 613-641): regroup the order's items by
`(cat, modelo, talle, color)` summing quantities, then render one line per group. -/
def formatear_productos_orden (productos : List (Info × Nat)) : List String :=
  (productos.foldl (fun m p => ddAdd m (p.1.cat, p.1.modelo, p.1.talle, p.1.color) p.2) []).map
    renderGrupo

/-- A positional word on a label page, as returned by `page.get_text("words")`:
bounding box `(x0, y0, x1, y1)` and the word text.  Coordinates are embedded
as rationals. -/
structure WordToken where
  x0 : Rat
  y0 : Rat
  x1 : Rat
  y1 : Rat
  text : String
deriving DecidableEq

/-- Sort key `key=lambda w: w[3]` (lines 673, 693, 706): ascending bottom-edge y. -/
def ordY1 (a b : WordToken) : Prop := a.y1 ≤ b.y1

instance : DecidableRel ordY1 := fun a b => inferInstanceAs (Decidable (a.y1 ≤ b.y1))

instance : IsTotal WordToken ordY1 := ⟨fun a b => le_total a.y1 b.y1⟩

instance : IsTrans WordToken ordY1 := ⟨fun _ _ _ h1 h2 => le_trans h1 h2⟩

/-- `UN_CM = 28.35` (line 651): one centimeter in page coordinate units. -/
def UN_CM : Rat := 2835 / 100

/-- The words containing "seguimiento" case-insensitively (lines 667-670). -/
def seguimientosDe (palabras : List WordToken) : List WordToken :=
  palabras.filter fun w => contieneSub ("seguimiento").data (lowerChars w.text.data)

/-- The words containing "importante" case-insensitively (lines 686-689). -/
def importantesDe (palabras : List WordToken) : List WordToken :=
  palabras.filter fun w => contieneSub ("importante").data (lowerChars w.text.data)

/-- The regex test `re.search(r'\d{10,}', w[4])` (line 702): a run of at least
ten consecutive digit characters, tracked by a running count. -/
def cuentaDigitos : List Char → Nat → Bool
  | [], _ => false
  | c :: cs, k =>
    if c.isDigit then (if 10 ≤ k + 1 then true else cuentaDigitos cs (k + 1))
    else cuentaDigitos cs 0

/-- A word text containing a run of ten or more digits. -/
def tieneNumeroLargo (cs : List Char) : Bool := cuentaDigitos cs 0

/-- The words containing a long digit run (lines 700-703). -/
def numerosLargosDe (palabras : List WordToken) : List WordToken :=
  palabras.filter fun w => tieneNumeroLargo w.text.data

/-- Cases 3 and 4 of the anchor decision (lines 699-714): last long number's
bottom edge plus one centimeter, else `pageHeight - 80`. -/
def locateNums (palabras : List WordToken) (pageHeight : Rat) : Rat :=
  match ((numerosLargosDe palabras).insertionSort ordY1).getLast? with
  | some u => u.y1 + UN_CM
  | none => pageHeight - 80

/-- The anchor y-coordinate decision of `anotar_pdf_con_productos`
(lines 664-714): with two or more "seguimiento" words, the second one (in
ascending bottom-edge order) plus one centimeter; with exactly one, the last
"importante" word plus one centimeter plus 50; otherwise the long-number and
page-bottom fallbacks. -/
def locate (palabras : List WordToken) (pageHeight : Rat) : Rat :=
  match (seguimientosDe palabras).insertionSort ordY1 with
  | _ :: w2 :: _ => w2.y1 + UN_CM
  | [_] =>
    match ((importantesDe palabras).insertionSort ordY1).getLast? with
    | some u => u.y1 + UN_CM + 50
    | none => locateNums palabras pageHeight
  | [] => locateNums palabras pageHeight

/-- Spec §4.4 step 1 as the spec words it (for comparison with `locate`):
collect the marker words, sort ascending by their TOP-edge y-coordinate, and
take the second one's bottom edge plus one centimeter. -/
def ordY0 (a b : WordToken) : Prop := a.y0 ≤ b.y0

instance : DecidableRel ordY0 := fun a b => inferInstanceAs (Decidable (a.y0 ≤ b.y0))

/-- Anchor value predicted by the claim's reading (top-edge sort), when at
least two marker words exist. -/
def anclajeSegunTop (palabras : List WordToken) : Option Rat :=
  match (seguimientosDe palabras).insertionSort ordY0 with
  | _ :: w2 :: _ => some (w2.y1 + UN_CM)
  | _ => none

/-- Invariant of the search-loop accumulator: either untouched, or it records a
matching entry of the mapping satisfying the phase condition, with its length. -/
def EstadoOk (cond : String × Info → Bool) (key : List Char)
    (univ : List (String × Info)) (st : Option Info × Nat) : Prop :=
  st = (none, 0) ∨ ∃ e, e ∈ univ ∧ cond e = true ∧ e.1.data.isPrefixOf key = true ∧
    st.1 = some e.2 ∧ st.2 = e.1.length

/-- Colored mapping entry used in the resolver scenarios. -/
def infoGarraM : Info := ⟨"ANTIESTRES", "Garra", "Gris", "M"⟩

/-- Longer colored mapping entry used in the resolver scenarios. -/
def infoGarraL : Info := ⟨"ANTIESTRES", "Garra", "Gris", "L"⟩

/-- Colorless mapping entry used in the resolver scenarios. -/
def infoPancho : Info := ⟨"ANTIESTRES", "Pancho", "", "M"⟩

/-- A small mapping with two colored entries (one a longer match) and one
colorless entry, exercising the phase-A longest-match choice. -/
def mapa4 : List (String × Info) :=
  [(("cama g"), infoGarraM), (("cama garra - an"), infoGarraL), (("cama"), infoPancho)]

/-- The two marker words of the anchor counterexample: the word with the
smaller TOP edge has the larger BOTTOM edge. -/
def cexPalabras : List WordToken :=
  [⟨0, 10, 5, 100, ("seguimiento")⟩, ⟨0, 20, 5, 30, ("seguimiento")⟩]

/-- The failing document for the quantity-default claim: the first product
takes quantity 3 from a digit line; the second product's span then ends at
the end of the block with no quantity line, no "Subtotal" line and no new
keyword line. -/
def docArrastre : List String :=
  [("Orden #1"), ("gatito verano (talla m"), ("3"), ("Subtotal $6000"), ("buzo panda")]

/-- A document in which the same order id heads two blocks. -/
def docDuplicado : List String :=
  [("Orden #7"), ("buzo panda"), ("2"), ("Orden #7"), ("gatito verano (talla s"), ("1")]

/-- Every stripped pure-digit line of the list parses to a positive integer. -/
def digitosPositivos (lineas : List String) : Prop :=
  ∀ l ∈ lineas, esDigitos (stripChars l.data) = true → 1 ≤ digitsToNat (stripChars l.data)

instance (lineas : List String) : Decidable (digitosPositivos lineas) := by
  unfold digitosPositivos; infer_instance

/-- The `cantidad` slot never holds a non-positive value. -/
def lastOk (lc : Option Nat) : Prop := ∀ c, lc = some c → 1 ≤ c

/-- The quantity-zero document: the digit line "0" is consumed as quantity. -/
def docCero : List String := [("Orden #2"), ("buzo panda"), ("0")]

/-- No order of the map carries an empty item list. -/
def sinVacias (m : List (String × List (Info × Nat))) : Prop := ∀ par ∈ m, ¬ par.2 = []

example : resolver MAPA_PRODUCTOS ("buzo panda") = some ⟨"ROPITA", "Ropita", "Panda", "U"⟩ := by
  decide

example : resolver MAPA_PRODUCTOS ("Gatito Verano (Talla M 70x70)") =
    some ⟨"VERANO", "Gatito", "Beige", "M"⟩ := by decide

example : resolver MAPA_PRODUCTOS ("cama misteriosa") = none := by decide

example : resolver MAPA_PRODUCTOS ("cama pancho antiestres - ergonomica (talla l") =
    some ⟨"ANTIESTRES", "Pancho", "", "L"⟩ := by decide

theorem capturarSpan_rest_len (nombre : List Char) (rest : List String) :
    (capturarSpan nombre rest).2.2.length ≤ rest.length := by
  induction rest generalizing nombre with
  | nil => simp [capturarSpan]
  | cons l ls ih =>
    simp only [capturarSpan]
    split
    · simp
    · split
      · simp
      · split
        · simp
        · exact Nat.le_succ_of_le (ih _)

theorem collectBlock_rest_len (ls : List String) :
    (collectBlock ls).2.length ≤ ls.length := by
  induction ls with
  | nil => simp [collectBlock]
  | cons l ls ih =>
    simp only [collectBlock]
    split
    · simp
    · simpa using Nat.le_succ_of_le ih

example :
    extraer_ordenes ["Orden #100", "Gatito Verano (Talla M", "3", "Subtotal $500", "Orden #101"] =
      [(("100"), [(⟨"VERANO", "Gatito", "Beige", "M"⟩, 3)])] := by decide

example :
    formatear_productos_orden [(⟨"MANTA", "Manta Doble Faz", "Gris/Blanco", "U"⟩, 2)] =
      [("Manta gris x2")] := by decide

example :
    formatear_productos_orden [(⟨"ROPITA", "Ropita", "Panda", "U"⟩, 1)] =
      [("Ropita U Panda x1")] := by decide

example :
    locate [⟨0, 0, 5, 100, "Número de seguimiento"⟩, ⟨0, 0, 5, 300, "seguimiento"⟩] 800 =
      300 + UN_CM := rfl

example : locate [] 800 = 800 - 80 := rfl

theorem paso_le (cond : String × Info → Bool) (key : List Char)
    (st : Option Info × Nat) (e : String × Info) : st.2 ≤ (paso cond key st e).2 := by
  unfold paso
  split
  · next h =>
    simp only [Bool.and_eq_true, decide_eq_true_eq] at h
    exact le_of_lt h.2
  · exact le_rfl

theorem foldl_paso_mono (cond : String × Info → Bool) (key : List Char) :
    ∀ (l : List (String × Info)) (st : Option Info × Nat),
      st.2 ≤ (l.foldl (paso cond key) st).2 := by
  intro l
  induction l with
  | nil => intro st; simp
  | cons e l ih =>
    intro st
    simp only [List.foldl_cons]
    exact le_trans (paso_le cond key st e) (ih (paso cond key st e))

theorem foldl_paso_max (cond : String × Info → Bool) (key : List Char) :
    ∀ (l : List (String × Info)) (st : Option Info × Nat), ∀ e ∈ l, cond e = true →
      e.1.data.isPrefixOf key = true → e.1.length ≤ (l.foldl (paso cond key) st).2 := by
  intro l
  induction l with
  | nil => intro st e he; simp at he
  | cons e0 l ih =>
    intro st e he hc hp
    simp only [List.foldl_cons]
    rcases List.mem_cons.mp he with rfl | he'
    · refine le_trans ?_ (foldl_paso_mono cond key l (paso cond key st e))
      unfold paso
      split
      · exact le_rfl
      · next h =>
        simp only [hc, hp, Bool.true_and, Bool.and_eq_true, decide_eq_true_eq] at h
        simpa using Nat.le_of_not_lt h
    · exact ih (paso cond key st e0) e he' hc hp

theorem paso_ok (cond : String × Info → Bool) (key : List Char)
    (univ : List (String × Info)) (st : Option Info × Nat) (e : String × Info)
    (hu : e ∈ univ) (h : EstadoOk cond key univ st) :
    EstadoOk cond key univ (paso cond key st e) := by
  unfold paso
  split
  · next hsel =>
    simp only [Bool.and_eq_true, decide_eq_true_eq] at hsel
    exact Or.inr ⟨e, hu, hsel.1.1, hsel.1.2, rfl, rfl⟩
  · exact h

theorem foldl_paso_ok (cond : String × Info → Bool) (key : List Char)
    (univ : List (String × Info)) :
    ∀ (l : List (String × Info)) (st : Option Info × Nat), (∀ e ∈ l, e ∈ univ) →
      EstadoOk cond key univ st → EstadoOk cond key univ (l.foldl (paso cond key) st) := by
  intro l
  induction l with
  | nil => intro st _ h; simpa using h
  | cons e l ih =>
    intro st hsub h
    simp only [List.foldl_cons]
    exact ih (paso cond key st e)
      (fun x hx => hsub x (List.mem_cons_of_mem e hx))
      (paso_ok cond key univ st e (hsub e (List.mem_cons_self e l)) h)

theorem paso_some (cond : String × Info → Bool) (key : List Char)
    (st : Option Info × Nat) (e : String × Info) (i : Info) (h : st.1 = some i) :
    ∃ j, (paso cond key st e).1 = some j := by
  unfold paso
  split
  · exact ⟨e.2, rfl⟩
  · exact ⟨i, h⟩

theorem paso_none_zero (cond : String × Info → Bool) (key : List Char)
    (st : Option Info × Nat) (e : String × Info) (h : st.1 = none → st.2 = 0) :
    (paso cond key st e).1 = none → (paso cond key st e).2 = 0 := by
  unfold paso
  split
  · intro hc; simp at hc
  · exact h

theorem foldl_paso_some (cond : String × Info → Bool) (key : List Char) :
    ∀ (l : List (String × Info)) (st : Option Info × Nat), (st.1 = none → st.2 = 0) →
      ((∃ i, st.1 = some i) ∨
        ∃ e ∈ l, cond e = true ∧ e.1.data.isPrefixOf key = true ∧ 0 < e.1.length) →
      ∃ i, (l.foldl (paso cond key) st).1 = some i := by
  intro l
  induction l with
  | nil =>
    intro st _ h
    rcases h with ⟨i, hi⟩ | ⟨e, he, _⟩
    · exact ⟨i, hi⟩
    · simp at he
  | cons e0 l ih =>
    intro st hz h
    simp only [List.foldl_cons]
    refine ih (paso cond key st e0) (paso_none_zero cond key st e0 hz) ?_
    rcases h with ⟨i, hi⟩ | ⟨e, he, hc, hp, hlen⟩
    · exact Or.inl (paso_some cond key st e0 i hi)
    · rcases List.mem_cons.mp he with rfl | he'
      · left
        cases hst : st.1 with
        | some i => exact paso_some cond key st e i hst
        | none =>
          refine ⟨e.2, ?_⟩
          unfold paso
          rw [if_pos]
          simp only [Bool.and_eq_true, decide_eq_true_eq]
          exact ⟨⟨hc, hp⟩, by rw [hz hst]; exact hlen⟩
      · exact Or.inr ⟨e, he', hc, hp, hlen⟩

/-- C5: for every mapping and input text, `resolver` returns either `none` or
the descriptor of a mapping entry whose key is a literal prefix of the
normalized text, and the returned entry's key length is at least the key
length of every other matching entry of the same search phase (entries with a
specific color in phase A, all entries in phase B). -/
theorem resolver_fases_longitud (mapa : List (String × Info)) (t : String) :
    resolver mapa t = none ∨
    ∃ e, e ∈ mapa ∧ e.1.data.isPrefixOf (normKey t) = true ∧ resolver mapa t = some e.2 ∧
      ((hasColor e.2 = true ∧ ∀ e2 ∈ mapa, hasColor e2.2 = true →
          e2.1.data.isPrefixOf (normKey t) = true → e2.1.length ≤ e.1.length) ∨
        (∀ e2 ∈ mapa, e2.1.data.isPrefixOf (normKey t) = true →
          e2.1.length ≤ e.1.length)) := by
  unfold resolver
  cases hA : (mapa.foldl (paso (fun e => hasColor e.2) (normKey t)) (none, 0)).1 with
  | some i =>
    right
    have hok := foldl_paso_ok (fun e => hasColor e.2) (normKey t) mapa mapa (none, 0)
      (fun _ h => h) (Or.inl rfl)
    rcases hok with h0 | ⟨e, hm, hc, hp, h1, h2⟩
    · rw [h0] at hA; simp at hA
    · rw [hA] at h1
      refine ⟨e, hm, hp, by simp [hA, Option.some_inj.mp h1], Or.inl ⟨hc, ?_⟩⟩
      intro e2 hm2 hc2 hp2
      have hmax := foldl_paso_max (fun e => hasColor e.2) (normKey t) mapa (none, 0) e2 hm2 hc2 hp2
      omega
  | none =>
    cases hB : (mapa.foldl (paso (fun _ => true) (normKey t)) (none, 0)).1 with
    | none => left; simp [hA, hB]
    | some i =>
      right
      have hok := foldl_paso_ok (fun _ => true) (normKey t) mapa mapa (none, 0)
        (fun _ h => h) (Or.inl rfl)
      rcases hok with h0 | ⟨e, hm, _, hp, h1, h2⟩
      · rw [h0] at hB; simp at hB
      · rw [hB] at h1
        refine ⟨e, hm, hp, by simp [hA, hB, Option.some_inj.mp h1], Or.inr ?_⟩
        intro e2 hm2 hp2
        have hmax := foldl_paso_max (fun _ => true) (normKey t) mapa (none, 0) e2 hm2 rfl hp2
        omega

/-- C4 (amended): if some entry with a specific color and a non-empty key
matches the normalized text, and its key is at least as long as that of every
matching colorless entry, then `resolver` answers from phase A: it returns the
descriptor of a matching colored entry whose key is at least as long as the
given one (the longest colored match, not necessarily the given entry). -/
theorem resolver_prioridad_color (mapa : List (String × Info)) (t : String)
    (e1 e2 : String × Info)
    (h1m : e1 ∈ mapa) (h1c : hasColor e1.2 = true)
    (h1p : e1.1.data.isPrefixOf (normKey t) = true) (h1n : 0 < e1.1.length)
    (h2m : e2 ∈ mapa) (h2c : hasColor e2.2 = false)
    (h2p : e2.1.data.isPrefixOf (normKey t) = true)
    (hge : ∀ e ∈ mapa, hasColor e.2 = false → e.1.data.isPrefixOf (normKey t) = true →
      e.1.length ≤ e1.1.length) :
    ∃ e, e ∈ mapa ∧ hasColor e.2 = true ∧ e.1.data.isPrefixOf (normKey t) = true ∧
      e1.1.length ≤ e.1.length ∧ resolver mapa t = some e.2 := by
  obtain ⟨i, hi⟩ := foldl_paso_some (fun e => hasColor e.2) (normKey t) mapa (none, 0)
    (fun _ => rfl) (Or.inr ⟨e1, h1m, h1c, h1p, h1n⟩)
  have hok := foldl_paso_ok (fun e => hasColor e.2) (normKey t) mapa mapa (none, 0)
    (fun _ h => h) (Or.inl rfl)
  rcases hok with h0 | ⟨e, hm, hc, hp, h1, h2⟩
  · rw [h0] at hi; simp at hi
  · have hmax := foldl_paso_max (fun e => hasColor e.2) (normKey t) mapa (none, 0) e1 h1m h1c h1p
    refine ⟨e, hm, hc, hp, by omega, ?_⟩
    unfold resolver
    simp only [hi]
    rw [hi] at h1
    exact h1

/-- C4 (counterexample to the claim as stated): in `mapa4`, on input
"cama garra - antiestres", the colored entry "cama g" and the colorless entry
"cama" both match, and "cama g" is at least as long as every matching
colorless entry; yet `resolver` does not return the descriptor of "cama g" —
it returns the descriptor of the longer colored entry "cama garra - an". -/
theorem resolver_prioridad_contra :
    (("cama g"), infoGarraM) ∈ mapa4 ∧ hasColor infoGarraM = true ∧
    ("cama g").data.isPrefixOf (normKey ("cama garra - antiestres")) = true ∧
    (("cama"), infoPancho) ∈ mapa4 ∧ hasColor infoPancho = false ∧
    ("cama").data.isPrefixOf (normKey ("cama garra - antiestres")) = true ∧
    (∀ e ∈ mapa4, hasColor e.2 = false →
      e.1.data.isPrefixOf (normKey ("cama garra - antiestres")) = true →
      e.1.length ≤ ("cama g").length) ∧
    resolver mapa4 ("cama garra - antiestres") = some infoGarraL ∧
    ¬ resolver mapa4 ("cama garra - antiestres") = some infoGarraM := by decide

/-- C4 witness: the amended color-priority theorem applied at the concrete
mapping `mapa4` and input "cama garra", discharging every hypothesis. -/
theorem resolver_prioridad_color_aplicado :
    ∃ e, e ∈ mapa4 ∧ hasColor e.2 = true ∧
      e.1.data.isPrefixOf (normKey ("cama garra")) = true ∧
      ("cama g").length ≤ e.1.length ∧ resolver mapa4 ("cama garra") = some e.2 :=
  resolver_prioridad_color mapa4 ("cama garra") (("cama g"), infoGarraM)
    (("cama"), infoPancho) (by decide) (by decide) (by decide) (by decide)
    (by decide) (by decide) (by decide) (by decide)

theorem cantidadDe_ddAdd (m : List (Info × Nat)) (k : Info) (v : Nat) (i : Info) :
    cantidadDe (ddAdd m k v) i =
      if i = k then cantidadDe m i + v else cantidadDe m i := by
  induction m with
  | nil =>
    by_cases h : i = k
    · subst h; simp [ddAdd, cantidadDe]
    · simp only [ddAdd, cantidadDe]
      rw [if_neg (fun hh => h hh.symm), if_neg h]
  | cons p rest ih =>
    by_cases h : i = k
    · subst h
      by_cases hp : p.1 = i
      · simp [ddAdd, cantidadDe, hp]
      · simp [ddAdd, cantidadDe, hp, ih]
    · by_cases hpk : p.1 = k
      · have hpi : ¬ p.1 = i := fun hh => h (by rw [← hh, hpk])
        have hki : ¬ k = i := fun hh => h hh.symm
        simp [ddAdd, cantidadDe, hpk, hpi, h, hki]
      · by_cases hpi : p.1 = i
        · simp [ddAdd, cantidadDe, hpk, hpi, h, ih]
        · simp [ddAdd, cantidadDe, hpk, hpi, h, ih]

theorem foldl_ddAdd_cantidad :
    ∀ (l : List (Info × Nat)) (m : List (Info × Nat)) (i : Info),
      cantidadDe (l.foldl (fun m p => ddAdd m p.1 p.2) m) i =
        cantidadDe m i + ((l.filter fun p => decide (p.1 = i)).map fun p => p.2).sum := by
  intro l
  induction l with
  | nil => intro m i; simp
  | cons p l ih =>
    intro m i
    simp only [List.foldl_cons]
    rw [ih]
    by_cases h : p.1 = i
    · simp [cantidadDe_ddAdd, h, List.filter_cons]
      omega
    · have : ¬ i = p.1 := fun hh => h hh.symm
      simp [cantidadDe_ddAdd, this, List.filter_cons, h]

theorem agrupar_cantidad (l : List (Info × Nat)) (i : Info) :
    cantidadDe (agrupar l) i = ((l.filter fun p => decide (p.1 = i)).map fun p => p.2).sum := by
  unfold agrupar
  rw [foldl_ddAdd_cantidad]
  simp [cantidadDe]

/-- C7: per-order aggregation is permutation-invariant: permuting the
sequence of (descriptor, quantity) items of one order does not change the
descriptor-to-summed-quantity mapping computed by `agrupar`. -/
theorem agrupar_conmutativa (l l2 : List (Info × Nat)) (hp : List.Perm l l2) (i : Info) :
    cantidadDe (agrupar l) i = cantidadDe (agrupar l2) i := by
  rw [agrupar_cantidad, agrupar_cantidad]
  exact ((hp.filter _).map _).sum_eq

/-- C7 witness: the aggregation theorem applied to a concrete item sequence
and a concrete permutation of it. -/
theorem agrupar_conmutativa_aplicado :
    cantidadDe (agrupar [(infoGarraM, 2), (infoPancho, 1), (infoGarraM, 3)]) infoGarraM =
      cantidadDe (agrupar [(infoGarraM, 3), (infoGarraM, 2), (infoPancho, 1)]) infoGarraM :=
  agrupar_conmutativa [(infoGarraM, 2), (infoPancho, 1), (infoGarraM, 3)]
    [(infoGarraM, 3), (infoGarraM, 2), (infoPancho, 1)] (by decide) infoGarraM

/-- C3 (counterexample to the claim as stated): a ROPITA item with the generic
clothing model and one-size is rendered by the default branch as
"Ropita U Panda x1", not as the ordinal-table line "Panda x1" that the claim
describes (size U with empty ordinal and omitted model/size). -/
theorem ropita_render_contra :
    formatear_productos_orden [(⟨"ROPITA", "Ropita", "Panda", "U"⟩, 1)] =
      [("Ropita U Panda x1")] ∧
    ¬ ("Ropita U Panda x1") = ("Panda x1") := by decide

/-- C3 (amended): `formatear_productos_orden` has no clothing-ordinal branch;
a ROPITA group with the generic clothing model and a non-blank color is
rendered by the default template "<model> <size> <color> x<qty>". -/
theorem ropita_formato_defecto (talle color : String) (cant : Nat)
    (hc : ¬ color = "") (hcs : ¬ stripChars color.data = []) :
    renderGrupo ((("ROPITA"), ("Ropita"), talle, color), cant) =
      ("Ropita") ++ (" ") ++ talle ++ (" ") ++ color ++ (" x") ++ toString cant := by
  simp only [renderGrupo]
  rw [if_neg (by decide), if_neg (by decide), if_pos ⟨hc, hcs⟩]

/-- C3 witness: the amended formatter theorem applied to a concrete ROPITA
group, discharging both hypotheses. -/
theorem ropita_formato_defecto_aplicado :
    renderGrupo ((("ROPITA"), ("Ropita"), ("U"), ("Panda")), 2) =
      ("Ropita") ++ (" ") ++ ("U") ++ (" ") ++ ("Panda") ++ (" x") ++ toString 2 :=
  ropita_formato_defecto ("U") ("Panda") 2 (by decide) (by decide)

theorem map_y1_insertionSort (l : List WordToken) :
    (l.insertionSort ordY1).map (fun w => w.y1) =
      (l.map fun w => w.y1).insertionSort (fun a b => a ≤ b) := by
  refine List.eq_of_perm_of_sorted (r := fun a b : Rat => a ≤ b) ?_ ?_ ?_
  · exact ((List.perm_insertionSort ordY1 l).map _).trans
      (List.perm_insertionSort _ (l.map fun w => w.y1)).symm
  · exact List.Pairwise.map _ (fun a b hh => hh) (List.sorted_insertionSort ordY1 l)
  · exact List.sorted_insertionSort _ _

/-- C8 (amended): when at least two words contain the marker "seguimiento",
the anchor is the second-smallest BOTTOM-edge y-coordinate among the marker
words (the second element in ascending bottom-edge order) plus one
centimeter. -/
theorem anclaje_segundo_seguimiento (palabras : List WordToken) (h : Rat)
    (h2 : 2 ≤ (seguimientosDe palabras).length) :
    locate palabras h =
      ((((seguimientosDe palabras).map fun w => w.y1).insertionSort
        (fun a b => a ≤ b))[1]?).getD 0 + UN_CM := by
  have hlen : 2 ≤ ((seguimientosDe palabras).insertionSort ordY1).length := by
    rwa [List.length_insertionSort]
  have hmap := map_y1_insertionSort (seguimientosDe palabras)
  unfold locate
  cases hS : (seguimientosDe palabras).insertionSort ordY1 with
  | nil => rw [hS] at hlen; simp at hlen
  | cons w1 rest =>
    cases rest with
    | nil => rw [hS] at hlen; simp at hlen
    | cons w2 rest2 =>
      rw [hS] at hmap
      rw [← hmap]
      simp

/-- C8 (counterexample to the claim as stated): on a page whose two marker
words interleave (top order ≠ bottom order), the spec-worded top-edge rule
predicts 30 + 28.35 while the code (which sorts by `w[3]`, the bottom edge)
produces 100 + 28.35. -/
theorem anclaje_orden_top_contra :
    anclajeSegunTop cexPalabras = some (30 + UN_CM) ∧
    locate cexPalabras 500 = 100 + UN_CM ∧
    ¬ (100 + UN_CM : Rat) = 30 + UN_CM := by
  refine ⟨rfl, rfl, ?_⟩
  intro hEq
  have h30 : (100 : Rat) = 30 := by
    have := add_right_cancel hEq
    exact this
  norm_num at h30

/-- C8 witness: the amended anchor theorem applied to the concrete page words,
discharging the two-marker hypothesis. -/
theorem anclaje_segundo_seguimiento_aplicado :
    locate cexPalabras 500 =
      ((((seguimientosDe cexPalabras).map fun w => w.y1).insertionSort
        (fun a b => a ≤ b))[1]?).getD 0 + UN_CM :=
  anclaje_segundo_seguimiento cexPalabras 500 (by decide)

/-- C9: the anchor logic is total (the model is a total function ending in the
page-bottom fallback), and on a page with no "seguimiento" word, no
"importante" word and no ten-digit run, the anchor is `pageHeight - 80`. -/
theorem anclaje_reserva_final (palabras : List WordToken) (h : Rat)
    (hw : ∀ w ∈ palabras,
      contieneSub ("seguimiento").data (lowerChars w.text.data) = false ∧
      contieneSub ("importante").data (lowerChars w.text.data) = false ∧
      tieneNumeroLargo w.text.data = false) :
    locate palabras h = h - 80 := by
  have h1 : seguimientosDe palabras = [] :=
    List.filter_eq_nil_iff.mpr (fun w hwm => by simp [(hw w hwm).1])
  have h3 : numerosLargosDe palabras = [] :=
    List.filter_eq_nil_iff.mpr (fun w hwm => by simp [(hw w hwm).2.2])
  unfold locate locateNums
  rw [h1, h3]
  simp [List.insertionSort]

/-- C9 witness: the fallback theorem applied to the empty word list. -/
theorem anclaje_reserva_final_aplicado : locate [] 720 = 720 - 80 :=
  anclaje_reserva_final [] 720 (by decide)

/-- C1: evaluation of the extractor at the failing input.  The second span
ends by exhausting the block's lines, yet its emitted quantity is 3 — the
previous span's value, kept alive because `'cantidad' not in locals()`
(line 281) is false once any earlier span assigned `cantidad` — instead of
the default 1 stated by the code's own comment (line 280) and the spec. -/
theorem cantidad_arrastrada_bug :
    extraer_ordenes docArrastre =
      [(("1"), [(⟨"VERANO", "Gatito", "Beige", "M"⟩, 3),
                (⟨"ROPITA", "Ropita", "Panda", "U"⟩, 3)])] := by decide

/-- C2 (counterexample to the claim as stated): with two `Orden #7` blocks,
the output for id 7 holds the items of BOTH blocks (`defaultdict(list)`
appends), not only the last block's item as the claim states. -/
theorem ordenes_duplicadas_contra :
    extraer_ordenes docDuplicado =
      [(("7"), [(⟨"ROPITA", "Ropita", "Panda", "U"⟩, 2),
                (⟨"VERANO", "Gatito", "Beige", "S"⟩, 1)])] ∧
    ¬ extraer_ordenes docDuplicado =
      [(("7"), [(⟨"VERANO", "Gatito", "Beige", "S"⟩, 1)])] := by decide

theorem ddAppend_lookup (m : List (String × List (Info × Nat))) (k : String)
    (v : Info × Nat) (o : String) :
    lookupOrden (ddAppend m k v) o =
      if o = k then lookupOrden m o ++ [v] else lookupOrden m o := by
  induction m with
  | nil =>
    by_cases h : o = k
    · subst h; simp [ddAppend, lookupOrden]
    · simp only [ddAppend, lookupOrden]
      rw [if_neg (fun hh => h hh.symm), if_neg h]
  | cons p rest ih =>
    by_cases h : o = k
    · subst h
      by_cases hp : p.1 = o
      · simp [ddAppend, lookupOrden, hp]
      · simp [ddAppend, lookupOrden, hp, ih]
    · by_cases hpk : p.1 = k
      · have hpo : ¬ p.1 = o := fun hh => h (by rw [← hh, hpk])
        have hko : ¬ k = o := fun hh => h hh.symm
        simp [ddAppend, lookupOrden, hpk, hpo, h, hko]
      · by_cases hpo : p.1 = o
        · simp [ddAppend, lookupOrden, hpk, hpo, h, ih]
        · simp [ddAppend, lookupOrden, hpk, hpo, h, ih]

theorem procesarGo_conserva (num : String) :
    ∀ (n : Nat) (lineas : List String) (st : SegState) (o : String),
      ∃ t, lookupOrden (procesarGo num n lineas st).ordenes o =
        lookupOrden st.ordenes o ++ t := by
  intro n
  induction n with
  | zero =>
    intro lineas st o
    cases lineas <;> exact ⟨[], by simp [procesarGo]⟩
  | succ n ih =>
    intro lineas st o
    cases lineas with
    | nil => exact ⟨[], by simp [procesarGo]⟩
    | cons l ls =>
      simp only [procesarGo]
      by_cases hkw : isKeywordLine (stripChars l.data) = true
      · rw [if_pos hkw]
        cases hres : resolver MAPA_PRODUCTOS
            (String.mk (capturarSpan (stripChars l.data) ls).1) with
        | none => exact ih _ _ o
        | some info =>
          obtain ⟨t, ht⟩ := ih ((capturarSpan (stripChars l.data) ls).2.2)
            ⟨(match (capturarSpan (stripChars l.data) ls).2.1 with
              | some c => (c, some c)
              | none =>
                match st.lastC with
                | some c => (c, some c)
                | none => (1, some 1)).2,
              ddAppend st.ordenes num
                (info, (match (capturarSpan (stripChars l.data) ls).2.1 with
                  | some c => (c, some c)
                  | none =>
                    match st.lastC with
                    | some c => (c, some c)
                    | none => (1, some 1)).1)⟩ o
          refine ⟨(if o = num then
              [(info, (match (capturarSpan (stripChars l.data) ls).2.1 with
                | some c => (c, some c)
                | none =>
                  match st.lastC with
                  | some c => (c, some c)
                  | none => (1, some 1)).1)] else []) ++ t, ?_⟩
          rw [ht]
          show lookupOrden (ddAppend st.ordenes num _) o ++ t = _
          rw [ddAppend_lookup]
          by_cases h : o = num
          · simp [h]
          · simp [h]
      · rw [if_neg hkw]
        exact ih ls st o

theorem extraerGo_conserva :
    ∀ (n : Nat) (lineas : List String) (st : SegState) (o : String),
      ∃ t, lookupOrden (extraerGo n lineas st).ordenes o =
        lookupOrden st.ordenes o ++ t := by
  intro n
  induction n with
  | zero =>
    intro lineas st o
    cases lineas <;> exact ⟨[], by simp [extraerGo]⟩
  | succ n ih =>
    intro lineas st o
    cases lineas with
    | nil => exact ⟨[], by simp [extraerGo]⟩
    | cons l ls =>
      simp only [extraerGo]
      by_cases hdr : ("Orden #").data.isPrefixOf (stripChars l.data) = true
      · rw [if_pos hdr]
        cases hs : searchOrden (stripChars l.data) with
        | none => exact ih ls st o
        | some num =>
          obtain ⟨t1, ht1⟩ := procesarGo_conserva num (collectBlock ls).1.length
            (collectBlock ls).1 st o
          obtain ⟨t2, ht2⟩ := ih (collectBlock ls).2
            (procesarLineas num (collectBlock ls).1 st) o
          refine ⟨t1 ++ t2, ?_⟩
          rw [ht2]
          show lookupOrden (procesarGo num (collectBlock ls).1.length
            (collectBlock ls).1 st).ordenes o ++ t2 = _
          rw [ht1, List.append_assoc]
      · rw [if_neg hdr]
        exact ih ls st o

/-- C2 (amended): the extractor never discards previously recorded items:
processing any further lines only appends to the item list recorded under
each order id.  Hence when an `Orden #<id>` header repeats, the later block's
items are appended after the earlier block's items (merged), not substituted
for them. -/
theorem extraer_conserva (lineas : List String) (st : SegState) (o : String) :
    ∃ t, lookupOrden (extraerLoop lineas st).ordenes o =
      lookupOrden st.ordenes o ++ t :=
  extraerGo_conserva lineas.length lineas st o

theorem capturarSpan_cant (rest : List String) :
    ∀ (nombre : List Char) (c : Nat), (capturarSpan nombre rest).2.1 = some c →
      c = 1 ∨ ∃ l ∈ rest, esDigitos (stripChars l.data) = true ∧
        c = digitsToNat (stripChars l.data) := by
  induction rest with
  | nil => intro nombre c h; simp [capturarSpan] at h
  | cons l ls ih =>
    intro nombre c h
    simp only [capturarSpan] at h
    by_cases h1 : esDigitos (stripChars l.data) = true
    · rw [if_pos h1] at h
      simp only at h
      right
      exact ⟨l, List.mem_cons_self l ls, h1, (Option.some_inj.mp h).symm⟩
    · rw [if_neg h1] at h
      by_cases h2 : contieneSub ("Subtotal").data (stripChars l.data) = true
      · rw [if_pos h2] at h
        simp only at h
        exact Or.inl (Option.some_inj.mp h).symm
      · rw [if_neg h2] at h
        by_cases h3 : isKeywordLine (stripChars l.data) = true
        · rw [if_pos h3] at h
          simp only at h
          exact Or.inl (Option.some_inj.mp h).symm
        · rw [if_neg h3] at h
          rcases ih _ _ h with h4 | ⟨l2, hl2, hd, hv⟩
          · exact Or.inl h4
          · exact Or.inr ⟨l2, List.mem_cons_of_mem l hl2, hd, hv⟩

theorem capturarSpan_rest_mem (rest : List String) :
    ∀ (nombre : List Char) (x : String), x ∈ (capturarSpan nombre rest).2.2 → x ∈ rest := by
  induction rest with
  | nil => intro nombre x h; simp [capturarSpan] at h
  | cons l ls ih =>
    intro nombre x h
    simp only [capturarSpan] at h
    by_cases h1 : esDigitos (stripChars l.data) = true
    · rw [if_pos h1] at h
      exact List.mem_cons_of_mem l h
    · rw [if_neg h1] at h
      by_cases h2 : contieneSub ("Subtotal").data (stripChars l.data) = true
      · rw [if_pos h2] at h
        exact h
      · rw [if_neg h2] at h
        by_cases h3 : isKeywordLine (stripChars l.data) = true
        · rw [if_pos h3] at h
          exact h
        · rw [if_neg h3] at h
          exact List.mem_cons_of_mem l (ih _ _ h)

theorem collectBlock_mem1 (ls : List String) :
    ∀ x ∈ (collectBlock ls).1, x ∈ ls := by
  induction ls with
  | nil => intro x h; simp [collectBlock] at h
  | cons l ls ih =>
    intro x h
    simp only [collectBlock] at h
    by_cases h1 : ("Orden #").data.isPrefixOf (stripChars l.data) = true
    · rw [if_pos h1] at h; simp at h
    · rw [if_neg h1] at h
      rcases List.mem_cons.mp h with rfl | h2
      · exact List.mem_cons_self x ls
      · exact List.mem_cons_of_mem l (ih x h2)

theorem collectBlock_mem2 (ls : List String) :
    ∀ x ∈ (collectBlock ls).2, x ∈ ls := by
  induction ls with
  | nil => intro x h; simp [collectBlock] at h
  | cons l ls ih =>
    intro x h
    simp only [collectBlock] at h
    by_cases h1 : ("Orden #").data.isPrefixOf (stripChars l.data) = true
    · rw [if_pos h1] at h; exact h
    · rw [if_neg h1] at h
      exact List.mem_cons_of_mem l (ih x h)

theorem ddAppend_todasPositivas (m : List (String × List (Info × Nat))) (k : String)
    (v : Info × Nat) (hm : todasPositivas m) (hv : 1 ≤ v.2) :
    todasPositivas (ddAppend m k v) := by
  induction m with
  | nil =>
    intro par hpar it hit
    simp only [ddAppend] at hpar
    rcases List.mem_singleton.mp hpar with rfl
    rcases List.mem_singleton.mp hit with rfl
    exact hv
  | cons p rest ih =>
    intro par hpar it hit
    simp only [ddAppend] at hpar
    by_cases h : p.1 = k
    · rw [if_pos h] at hpar
      rcases List.mem_cons.mp hpar with rfl | h2
      · rcases List.mem_append.mp hit with h3 | h3
        · exact hm p (List.mem_cons_self p rest) it h3
        · rcases List.mem_singleton.mp h3 with rfl
          exact hv
      · exact hm par (List.mem_cons_of_mem p h2) it hit
    · rw [if_neg h] at hpar
      rcases List.mem_cons.mp hpar with rfl | h2
      · exact hm par (List.mem_cons_self par rest) it hit
      · exact ih (fun q hq => hm q (List.mem_cons_of_mem p hq)) par h2 it hit

theorem procesarGo_positivas (num : String) :
    ∀ (n : Nat) (lineas : List String) (st : SegState),
      digitosPositivos lineas → lastOk st.lastC → todasPositivas st.ordenes →
      lastOk (procesarGo num n lineas st).lastC ∧
        todasPositivas (procesarGo num n lineas st).ordenes := by
  intro n
  induction n with
  | zero =>
    intro lineas st hd hl ho
    cases lineas <;> exact ⟨hl, ho⟩
  | succ n ih =>
    intro lineas st hd hl ho
    cases lineas with
    | nil => exact ⟨hl, ho⟩
    | cons l ls =>
      simp only [procesarGo]
      by_cases hkw : isKeywordLine (stripChars l.data) = true
      · rw [if_pos hkw]
        have hdls : digitosPositivos ((capturarSpan (stripChars l.data) ls).2.2) :=
          fun x hx => hd x (List.mem_cons_of_mem l (capturarSpan_rest_mem ls _ x hx))
        have hcl : 1 ≤ (match (capturarSpan (stripChars l.data) ls).2.1 with
            | some c => ((c, some c) : Nat × Option Nat)
            | none =>
              match st.lastC with
              | some c => (c, some c)
              | none => (1, some 1)).1 ∧
            lastOk (match (capturarSpan (stripChars l.data) ls).2.1 with
            | some c => ((c, some c) : Nat × Option Nat)
            | none =>
              match st.lastC with
              | some c => (c, some c)
              | none => (1, some 1)).2 := by
          cases hc : (capturarSpan (stripChars l.data) ls).2.1 with
          | some c =>
            have hpos : 1 ≤ c := by
              rcases capturarSpan_cant ls _ c hc with rfl | ⟨l2, hl2, hdg, hv⟩
              · exact le_rfl
              · exact hv ▸ hd l2 (List.mem_cons_of_mem l hl2) hdg
            exact ⟨hpos, fun c2 hc2 => (Option.some_inj.mp hc2) ▸ hpos⟩
          | none =>
            cases hlast : st.lastC with
            | some c =>
              have hpos : 1 ≤ c := hl c hlast
              exact ⟨hpos, fun c2 hc2 => (Option.some_inj.mp hc2) ▸ hpos⟩
            | none =>
              exact ⟨le_rfl, fun c2 hc2 => (Option.some_inj.mp hc2) ▸ le_rfl⟩
        cases hres : resolver MAPA_PRODUCTOS
            (String.mk (capturarSpan (stripChars l.data) ls).1) with
        | none => exact ih _ _ hdls hcl.2 ho
        | some info =>
          exact ih _ _ hdls hcl.2 (ddAppend_todasPositivas st.ordenes num _ ho hcl.1)
      · rw [if_neg hkw]
        exact ih ls st (fun x hx => hd x (List.mem_cons_of_mem l hx)) hl ho

theorem extraerGo_positivas :
    ∀ (n : Nat) (lineas : List String) (st : SegState),
      digitosPositivos lineas → lastOk st.lastC → todasPositivas st.ordenes →
      lastOk (extraerGo n lineas st).lastC ∧
        todasPositivas (extraerGo n lineas st).ordenes := by
  intro n
  induction n with
  | zero =>
    intro lineas st hd hl ho
    cases lineas <;> exact ⟨hl, ho⟩
  | succ n ih =>
    intro lineas st hd hl ho
    cases lineas with
    | nil => exact ⟨hl, ho⟩
    | cons l ls =>
      simp only [extraerGo]
      by_cases hdr : ("Orden #").data.isPrefixOf (stripChars l.data) = true
      · rw [if_pos hdr]
        cases hs : searchOrden (stripChars l.data) with
        | none => exact ih ls st (fun x hx => hd x (List.mem_cons_of_mem l hx)) hl ho
        | some num =>
          have hb1 : digitosPositivos ((collectBlock ls).1) :=
            fun x hx => hd x (List.mem_cons_of_mem l (collectBlock_mem1 ls x hx))
          have hb2 : digitosPositivos ((collectBlock ls).2) :=
            fun x hx => hd x (List.mem_cons_of_mem l (collectBlock_mem2 ls x hx))
          have hp := procesarGo_positivas num (collectBlock ls).1.length (collectBlock ls).1
            st hb1 hl ho
          exact ih (collectBlock ls).2 (procesarLineas num (collectBlock ls).1 st)
            hb2 hp.1 hp.2
      · rw [if_neg hdr]
        exact ih ls st (fun x hx => hd x (List.mem_cons_of_mem l hx)) hl ho

theorem ddAdd_pos {κ : Type} [DecidableEq κ] (m : List (κ × Nat)) (k : κ) (v : Nat)
    (hm : ∀ g ∈ m, 1 ≤ g.2) (hv : 1 ≤ v) : ∀ g ∈ ddAdd m k v, 1 ≤ g.2 := by
  induction m with
  | nil =>
    intro g hg
    simp only [ddAdd] at hg
    rcases List.mem_singleton.mp hg with rfl
    exact hv
  | cons p rest ih =>
    intro g hg
    simp only [ddAdd] at hg
    by_cases h : p.1 = k
    · rw [if_pos h] at hg
      rcases List.mem_cons.mp hg with rfl | h2
      · have := hm p (List.mem_cons_self p rest)
        simp only
        omega
      · exact hm g (List.mem_cons_of_mem p h2)
    · rw [if_neg h] at hg
      rcases List.mem_cons.mp hg with rfl | h2
      · exact hm g (List.mem_cons_self g rest)
      · exact ih (fun q hq => hm q (List.mem_cons_of_mem p hq)) g h2

theorem agrupar_positivas (ps : List (Info × Nat)) (h : ∀ it ∈ ps, 1 ≤ it.2) :
    ∀ g ∈ agrupar ps, 1 ≤ g.2 := by
  unfold agrupar
  suffices hgen : ∀ (l : List (Info × Nat)) (m : List (Info × Nat)),
      (∀ g ∈ m, 1 ≤ g.2) → (∀ it ∈ l, 1 ≤ it.2) →
      ∀ g ∈ l.foldl (fun m p => ddAdd m p.1 p.2) m, 1 ≤ g.2 by
    exact hgen ps [] (fun g hg => by simp at hg) h
  intro l
  induction l with
  | nil => intro m hm _ g hg; exact hm g hg
  | cons p l ih =>
    intro m hm hl g hg
    simp only [List.foldl_cons] at hg
    exact ih (ddAdd m p.1 p.2)
      (ddAdd_pos m p.1 p.2 hm (hl p (List.mem_cons_self p l)))
      (fun it hit => hl it (List.mem_cons_of_mem p hit)) g hg

/-- C6 (amended): every quantity the segmenter emits into an order's raw item
list — and hence every aggregated quantity — is positive PROVIDED every
pure-digit line in the document has a positive value; a digit line "0" is
accepted verbatim by `int(...)` and yields quantity 0, so positivity is
conditional on that hypothesis. -/
theorem cantidades_positivas (lineas : List String) (h : digitosPositivos lineas) :
    todasPositivas ((extraerLoop lineas ⟨none, []⟩).ordenes) ∧
      todasPositivas (extraer_ordenes lineas) := by
  have hmain := extraerGo_positivas lineas.length lineas ⟨none, []⟩ h
    (fun c hc => by simp at hc) (fun par hpar => by simp at hpar)
  refine ⟨hmain.2, ?_⟩
  unfold extraer_ordenes
  intro par hpar it hit
  obtain ⟨par0, hpar0, rfl⟩ := List.mem_map.mp hpar
  exact agrupar_positivas par0.2
    (fun it2 hit2 => hmain.2 par0 hpar0 it2 hit2) it hit

/-- C6 (counterexample to the claim as stated): the digit line "0" yields an
emitted item with quantity 0, which is not a positive integer. -/
theorem cantidad_cero_contra :
    extraer_ordenes docCero = [(("2"), [(⟨"ROPITA", "Ropita", "Panda", "U"⟩, 0)])] ∧
    ¬ todasPositivas (extraer_ordenes docCero) := by decide

/-- C6 witness: the positivity theorem applied to a concrete document whose
only digit line is "2". -/
theorem cantidades_positivas_aplicado :
    todasPositivas ((extraerLoop [("Orden #3"), ("buzo panda"), ("2")] ⟨none, []⟩).ordenes) ∧
      todasPositivas (extraer_ordenes [("Orden #3"), ("buzo panda"), ("2")]) :=
  cantidades_positivas [("Orden #3"), ("buzo panda"), ("2")] (by decide)

theorem claves_ddAppend (m : List (String × List (Info × Nat))) (k : String)
    (v : Info × Nat) (o : String) :
    o ∈ claves (ddAppend m k v) ↔ o ∈ claves m ∨ o = k := by
  induction m with
  | nil => simp [ddAppend, claves]
  | cons p rest ih =>
    simp only [ddAppend]
    by_cases h : p.1 = k
    · rw [if_pos h]
      simp only [claves, List.map_cons, List.mem_cons] at ih ⊢
      rw [h]
      tauto
    · rw [if_neg h]
      simp only [claves, List.map_cons, List.mem_cons] at ih ⊢
      rw [ih]
      tauto

theorem procesarGo_claves (num : String) :
    ∀ (n : Nat) (lineas : List String) (st : SegState) (o : String),
      ¬ o ∈ claves st.ordenes → ¬ o = num →
      ¬ o ∈ claves (procesarGo num n lineas st).ordenes := by
  intro n
  induction n with
  | zero =>
    intro lineas st o ho _
    cases lineas <;> exact ho
  | succ n ih =>
    intro lineas st o ho hnum
    cases lineas with
    | nil => exact ho
    | cons l ls =>
      simp only [procesarGo]
      by_cases hkw : isKeywordLine (stripChars l.data) = true
      · rw [if_pos hkw]
        cases hres : resolver MAPA_PRODUCTOS
            (String.mk (capturarSpan (stripChars l.data) ls).1) with
        | none => exact ih _ _ o ho hnum
        | some info =>
          refine ih _ _ o ?_ hnum
          intro hmem
          rcases (claves_ddAppend st.ordenes num _ o).mp hmem with h2 | h2
          · exact ho h2
          · exact hnum h2
      · rw [if_neg hkw]
        exact ih ls st o ho hnum

theorem procesarGo_sin_resolucion (num : String) :
    ∀ (n : Nat) (lineas : List String) (st : SegState),
      (∀ s ∈ spansGo n lineas, resolver MAPA_PRODUCTOS (String.mk s) = none) →
      (procesarGo num n lineas st).ordenes = st.ordenes := by
  intro n
  induction n with
  | zero =>
    intro lineas st _
    cases lineas <;> rfl
  | succ n ih =>
    intro lineas st hsp
    cases lineas with
    | nil => rfl
    | cons l ls =>
      simp only [procesarGo]
      simp only [spansGo] at hsp
      by_cases hkw : isKeywordLine (stripChars l.data) = true
      · rw [if_pos hkw]
        rw [if_pos hkw] at hsp
        have hres := hsp (capturarSpan (stripChars l.data) ls).1
          (List.mem_cons_self _ _)
        simp only [hres]
        exact ih ((capturarSpan (stripChars l.data) ls).2.2) _
          (fun s hs => hsp s (List.mem_cons_of_mem _ hs))
      · rw [if_neg hkw]
        rw [if_neg hkw] at hsp
        exact ih ls st hsp

theorem extraerGo_ausente :
    ∀ (n : Nat) (lineas : List String) (st : SegState) (o : String),
      ¬ o ∈ claves st.ordenes →
      (∀ nb ∈ partirGo n lineas, nb.1 = o →
        ∀ s ∈ spansBloque nb.2, resolver MAPA_PRODUCTOS (String.mk s) = none) →
      ¬ o ∈ claves (extraerGo n lineas st).ordenes := by
  intro n
  induction n with
  | zero =>
    intro lineas st o ho _
    cases lineas <;> exact ho
  | succ n ih =>
    intro lineas st o ho hb
    cases lineas with
    | nil => exact ho
    | cons l ls =>
      simp only [extraerGo]
      simp only [partirGo] at hb
      by_cases hdr : ("Orden #").data.isPrefixOf (stripChars l.data) = true
      · rw [if_pos hdr]
        rw [if_pos hdr] at hb
        cases hs : searchOrden (stripChars l.data) with
        | none =>
          rw [hs] at hb
          exact ih ls st o ho hb
        | some num =>
          rw [hs] at hb
          by_cases hnum : num = o
          · subst hnum
            have hspan : ∀ s ∈ spansBloque (collectBlock ls).1,
                resolver MAPA_PRODUCTOS (String.mk s) = none :=
              hb (num, (collectBlock ls).1) (List.mem_cons_self _ _) rfl
            have heq : (procesarLineas num (collectBlock ls).1 st).ordenes = st.ordenes :=
              procesarGo_sin_resolucion num (collectBlock ls).1.length (collectBlock ls).1
                st hspan
            refine ih (collectBlock ls).2 (procesarLineas num (collectBlock ls).1 st) num
              ?_ (fun nb hnb => hb nb (List.mem_cons_of_mem _ hnb))
            rw [heq]
            exact ho
          · refine ih (collectBlock ls).2 (procesarLineas num (collectBlock ls).1 st) o
              ?_ (fun nb hnb => hb nb (List.mem_cons_of_mem _ hnb))
            exact procesarGo_claves num (collectBlock ls).1.length (collectBlock ls).1 st o
              ho (fun hh => hnum hh.symm)
      · rw [if_neg hdr]
        rw [if_neg hdr] at hb
        exact ih ls st o ho hb

theorem ddAppend_sinVacias (m : List (String × List (Info × Nat))) (k : String)
    (v : Info × Nat) (hm : sinVacias m) : sinVacias (ddAppend m k v) := by
  induction m with
  | nil =>
    intro par hpar
    simp only [ddAppend] at hpar
    rcases List.mem_singleton.mp hpar with rfl
    simp
  | cons p rest ih =>
    intro par hpar
    simp only [ddAppend] at hpar
    by_cases h : p.1 = k
    · rw [if_pos h] at hpar
      rcases List.mem_cons.mp hpar with rfl | h2
      · simp
      · exact hm par (List.mem_cons_of_mem p h2)
    · rw [if_neg h] at hpar
      rcases List.mem_cons.mp hpar with rfl | h2
      · exact hm par (List.mem_cons_self par rest)
      · exact ih (fun q hq => hm q (List.mem_cons_of_mem p hq)) par h2

theorem procesarGo_sinVacias (num : String) :
    ∀ (n : Nat) (lineas : List String) (st : SegState), sinVacias st.ordenes →
      sinVacias (procesarGo num n lineas st).ordenes := by
  intro n
  induction n with
  | zero =>
    intro lineas st ho
    cases lineas <;> exact ho
  | succ n ih =>
    intro lineas st ho
    cases lineas with
    | nil => exact ho
    | cons l ls =>
      simp only [procesarGo]
      by_cases hkw : isKeywordLine (stripChars l.data) = true
      · rw [if_pos hkw]
        cases hres : resolver MAPA_PRODUCTOS
            (String.mk (capturarSpan (stripChars l.data) ls).1) with
        | none => exact ih _ _ ho
        | some info => exact ih _ _ (ddAppend_sinVacias st.ordenes num _ ho)
      · rw [if_neg hkw]
        exact ih ls st ho

theorem extraerGo_sinVacias :
    ∀ (n : Nat) (lineas : List String) (st : SegState), sinVacias st.ordenes →
      sinVacias (extraerGo n lineas st).ordenes := by
  intro n
  induction n with
  | zero =>
    intro lineas st ho
    cases lineas <;> exact ho
  | succ n ih =>
    intro lineas st ho
    cases lineas with
    | nil => exact ho
    | cons l ls =>
      simp only [extraerGo]
      by_cases hdr : ("Orden #").data.isPrefixOf (stripChars l.data) = true
      · rw [if_pos hdr]
        cases hs : searchOrden (stripChars l.data) with
        | none => exact ih ls st ho
        | some num =>
          exact ih (collectBlock ls).2 _
            (procesarGo_sinVacias num (collectBlock ls).1.length (collectBlock ls).1 st ho)
      · rw [if_neg hdr]
        exact ih ls st ho

theorem ddAdd_length {κ : Type} [DecidableEq κ] (m : List (κ × Nat)) (k : κ) (v : Nat) :
    m.length ≤ (ddAdd m k v).length := by
  induction m with
  | nil => simp [ddAdd]
  | cons p rest ih =>
    simp only [ddAdd]
    by_cases h : p.1 = k
    · rw [if_pos h]; simp
    · rw [if_neg h]
      simpa using ih

theorem foldl_ddAdd_length :
    ∀ (l : List (Info × Nat)) (m : List (Info × Nat)),
      m.length ≤ (l.foldl (fun m p => ddAdd m p.1 p.2) m).length := by
  intro l
  induction l with
  | nil => intro m; simp
  | cons p l ih =>
    intro m
    simp only [List.foldl_cons]
    exact le_trans (ddAdd_length m p.1 p.2) (ih (ddAdd m p.1 p.2))

theorem agrupar_no_vacia (ps : List (Info × Nat)) (h : ¬ ps = []) : ¬ agrupar ps = [] := by
  cases ps with
  | nil => exact absurd rfl h
  | cons p l =>
    unfold agrupar
    intro hempty
    have hlen := foldl_ddAdd_length l (ddAdd [] p.1 p.2)
    simp only [List.foldl_cons] at hempty
    rw [hempty] at hlen
    simp [ddAdd] at hlen

/-- C10: an order id all of whose blocks yield only unresolvable product spans
(including ids with no keyword line at all) is entirely absent as a key of the
extractor's output, and, complementarily, every id present in the output
carries a non-empty item list. -/
theorem ordenes_sin_resolucion_ausentes :
    (∀ (lineas : List String) (o : String),
      (∀ nb ∈ partirBloques lineas, nb.1 = o →
        ∀ s ∈ spansBloque nb.2, resolver MAPA_PRODUCTOS (String.mk s) = none) →
      ¬ o ∈ claves (extraer_ordenes lineas)) ∧
    (∀ (lineas : List String), ∀ par ∈ extraer_ordenes lineas, ¬ par.2 = []) := by
  constructor
  · intro lineas o hb hmem
    have h1 := extraerGo_ausente lineas.length lineas ⟨none, []⟩ o
      (by simp [claves]) hb
    apply h1
    unfold extraer_ordenes at hmem
    simp only [claves, List.map_map] at hmem ⊢
    simpa using hmem
  · intro lineas par hpar
    have h2 := extraerGo_sinVacias lineas.length lineas ⟨none, []⟩
      (by intro q hq; simp at hq)
    unfold extraer_ordenes at hpar
    obtain ⟨par0, hpar0, rfl⟩ := List.mem_map.mp hpar
    exact agrupar_no_vacia par0.2 (h2 par0 hpar0)

/-- C10 witness: the absence theorem applied to a concrete document whose only
block has a single keyword line that resolves to nothing. -/
theorem ordenes_sin_resolucion_ausentes_aplicado :
    ¬ ("9") ∈ claves (extraer_ordenes [("Orden #9"), ("cama misteriosa")]) :=
  ordenes_sin_resolucion_ausentes.1 [("Orden #9"), ("cama misteriosa")] ("9") (by decide)

theorem procesarGo_fuel (num : String) :
    ∀ (n m : Nat) (lineas : List String) (st : SegState),
      lineas.length ≤ n → lineas.length ≤ m →
      procesarGo num n lineas st = procesarGo num m lineas st := by
  intro n
  induction n with
  | zero =>
    intro m lineas st hn _
    cases lineas with
    | nil => cases m <;> rfl
    | cons l ls => simp at hn
  | succ n ih =>
    intro m lineas st hn hm
    cases lineas with
    | nil => cases m <;> rfl
    | cons l ls =>
      cases m with
      | zero => simp at hm
      | succ m =>
        simp only [List.length_cons, Nat.succ_le_succ_iff] at hn hm
        have hcap := capturarSpan_rest_len (stripChars l.data) ls
        simp only [procesarGo]
        by_cases hkw : isKeywordLine (stripChars l.data) = true
        · rw [if_pos hkw, if_pos hkw]
          exact ih m _ _ (le_trans hcap hn) (le_trans hcap hm)
        · rw [if_neg hkw, if_neg hkw]
          exact ih m ls st hn hm

theorem extraerGo_fuel :
    ∀ (n m : Nat) (lineas : List String) (st : SegState),
      lineas.length ≤ n → lineas.length ≤ m →
      extraerGo n lineas st = extraerGo m lineas st := by
  intro n
  induction n with
  | zero =>
    intro m lineas st hn _
    cases lineas with
    | nil => cases m <;> rfl
    | cons l ls => simp at hn
  | succ n ih =>
    intro m lineas st hn hm
    cases lineas with
    | nil => cases m <;> rfl
    | cons l ls =>
      cases m with
      | zero => simp at hm
      | succ m =>
        simp only [List.length_cons, Nat.succ_le_succ_iff] at hn hm
        have hcol := collectBlock_rest_len ls
        simp only [extraerGo]
        by_cases hdr : ("Orden #").data.isPrefixOf (stripChars l.data) = true
        · rw [if_pos hdr, if_pos hdr]
          cases hs : searchOrden (stripChars l.data) with
          | none => exact ih m ls st hn hm
          | some num => exact ih m _ _ (le_trans hcol hn) (le_trans hcol hm)
        · rw [if_neg hdr, if_neg hdr]
          exact ih m ls st hn hm
